import Mathlib

/-!
# gohash: a verification development

Shallow embedding of `main.go` of JokkeeZ/gohash together with the parts of the Go
standard library the program calls (`crypto/md5`, `crypto/sha1`, `crypto/sha256`,
`crypto/sha512`, `encoding/hex`, `fmt.Sprintf`, `fmt.Printf`, `fmt.Scanln`,
`strings.ToLower`, `io.Copy`).

Conventions.

* A Go `string` is the list of runes it decodes to (`List Char`); a `[]byte` is a
  `List Nat` whose entries are below 256.
* Machine words are natural numbers reduced modulo `2 ^ 32` or `2 ^ 64` wherever the Go
  code can overflow.
* The process state (arguments, standard input and output, file system, the six global
  hash accumulators) is an explicit `World` passed through every function; a function
  that can terminate the process returns a `Res`.
-/

namespace Gohash

/-! ## Machine words -/

/-- Left rotation of a `w`-bit word, `bits.RotateLeft32` and `bits.RotateLeft64`. -/
def rotl (w x k : Nat) : Nat := ((x <<< k) ||| (x >>> (w - k))) % 2 ^ w

/-- Right rotation of a `w`-bit word (a left rotation by a negative count in Go). -/
def rotr (w x k : Nat) : Nat := rotl w x (w - k)

/-- Bitwise complement of a 32-bit word, Go's unary `^`. -/
def not32 (x : Nat) : Nat := x ^^^ 0xffffffff

/-- Bitwise complement of a 64-bit word. -/
def not64 (x : Nat) : Nat := x ^^^ 0xffffffffffffffff

/-- The big-endian 32-bit word at offset `j` of `p`. -/
def beWord32 (p : List Nat) (j : Nat) : Nat :=
  (p.getD j 0 <<< 24 ||| p.getD (j + 1) 0 <<< 16 ||| p.getD (j + 2) 0 <<< 8 ||| p.getD (j + 3) 0)
    % 2 ^ 32

/-- The little-endian 32-bit word at offset `j` of `p`. -/
def leWord32 (p : List Nat) (j : Nat) : Nat :=
  (p.getD j 0 ||| p.getD (j + 1) 0 <<< 8 ||| p.getD (j + 2) 0 <<< 16 ||| p.getD (j + 3) 0 <<< 24)
    % 2 ^ 32

/-- The big-endian 64-bit word at offset `j` of `p`. -/
def beWord64 (p : List Nat) (j : Nat) : Nat :=
  (beWord32 p j <<< 32 ||| beWord32 p (j + 4)) % 2 ^ 64

/-- Big-endian bytes of a 32-bit word, `binary.BigEndian.PutUint32`. -/
def putBE32 (v : Nat) : List Nat := [v >>> 24 % 256, v >>> 16 % 256, v >>> 8 % 256, v % 256]

/-- Little-endian bytes of a 32-bit word, `binary.LittleEndian.PutUint32`. -/
def putLE32 (v : Nat) : List Nat := [v % 256, v >>> 8 % 256, v >>> 16 % 256, v >>> 24 % 256]

/-- Big-endian bytes of a 64-bit word, `binary.BigEndian.PutUint64`. -/
def putBE64 (v : Nat) : List Nat := putBE32 (v >>> 32 % 2 ^ 32) ++ putBE32 (v % 2 ^ 32)

/-- Little-endian bytes of a 64-bit word, `binary.LittleEndian.PutUint64`. -/
def putLE64 (v : Nat) : List Nat := putLE32 (v % 2 ^ 32) ++ putLE32 (v >>> 32 % 2 ^ 32)

/-! ## The hash primitives (`crypto/md5`, `crypto/sha1`, `crypto/sha256`, `crypto/sha512`) -/

/-- The six hash accumulators the program constructs, in registry order. -/
inductive HashKind where
  | md5 | sha1 | sha224 | sha384 | sha256 | sha512
  deriving DecidableEq

/-- Additive constants of MD5. -/
def md5K : List Nat := [
  0xd76aa478, 0xe8c7b756, 0x242070db, 0xc1bdceee, 0xf57c0faf, 0x4787c62a, 0xa8304613, 0xfd469501,
  0x698098d8, 0x8b44f7af, 0xffff5bb1, 0x895cd7be, 0x6b901122, 0xfd987193, 0xa679438e, 0x49b40821,
  0xf61e2562, 0xc040b340, 0x265e5a51, 0xe9b6c7aa, 0xd62f105d, 0x02441453, 0xd8a1e681, 0xe7d3fbc8,
  0x21e1cde6, 0xc33707d6, 0xf4d50d87, 0x455a14ed, 0xa9e3e905, 0xfcefa3f8, 0x676f02d9, 0x8d2a4c8a,
  0xfffa3942, 0x8771f681, 0x6d9d6122, 0xfde5380c, 0xa4beea44, 0x4bdecfa9, 0xf6bb4b60, 0xbebfbc70,
  0x289b7ec6, 0xeaa127fa, 0xd4ef3085, 0x04881d05, 0xd9d4d039, 0xe6db99e5, 0x1fa27cf8, 0xc4ac5665,
  0xf4292244, 0x432aff97, 0xab9423a7, 0xfc93a039, 0x655b59c3, 0x8f0ccc92, 0xffeff47d, 0x85845dd1,
  0x6fa87e4f, 0xfe2ce6e0, 0xa3014314, 0x4e0811a1, 0xf7537e82, 0xbd3af235, 0x2ad7d2bb, 0xeb86d391]

/-- Rotation counts of MD5, four per round, used cyclically. -/
def md5Shift : List Nat := [7, 12, 17, 22, 5, 9, 14, 20, 4, 11, 16, 23, 6, 10, 15, 21]

/-- One of the 64 steps of the MD5 block function (`md5.blockGeneric`, whose rounds Go
writes unrolled); `x` holds the sixteen little-endian words of the block. -/
def md5Step (x : List Nat) (s : List Nat) (i : Nat) : List Nat :=
  match s with
  | [a, b, c, d] =>
    let r := i / 16
    let f := if r = 0 then ((c ^^^ d) &&& b) ^^^ d
      else if r = 1 then ((b ^^^ c) &&& d) ^^^ c
      else if r = 2 then b ^^^ c ^^^ d
      else c ^^^ (b ||| not32 d)
    let g := if r = 0 then i
      else if r = 1 then (5 * i + 1) % 16
      else if r = 2 then (3 * i + 5) % 16
      else (7 * i) % 16
    let t := (a + f + x.getD g 0 + md5K.getD i 0) % 2 ^ 32
    [d, (b + rotl 32 t (md5Shift.getD (4 * r + i % 4) 0)) % 2 ^ 32, b, c]
  | _ => s

/-- MD5 on one 64-byte block. -/
def md5Compress (h : List Nat) (p : List Nat) : List Nat :=
  let x := (List.range 16).map fun i => leWord32 p (i * 4)
  List.zipWith (fun u v => (u + v) % 2 ^ 32) h ((List.range 64).foldl (md5Step x) h)

/-- Message schedule of SHA-1: the sixteen words of the block extended to eighty. -/
def sha1Schedule (p : List Nat) : List Nat :=
  (List.range 64).foldl (fun w k =>
    let i := k + 16
    w ++ [rotl 32 (w.getD (i - 3) 0 ^^^ w.getD (i - 8) 0 ^^^ w.getD (i - 14) 0 ^^^ w.getD (i - 16) 0) 1])
    ((List.range 16).map fun i => beWord32 p (i * 4))

/-- One of the 80 steps of the SHA-1 block function (`sha1.blockGeneric`). -/
def sha1Step (w : List Nat) (s : List Nat) (i : Nat) : List Nat :=
  match s with
  | [a, b, c, d, e] =>
    let f := if i < 20 then (b &&& c) ||| (not32 b &&& d)
      else if i < 40 then b ^^^ c ^^^ d
      else if i < 60 then ((b ||| c) &&& d) ||| (b &&& c)
      else b ^^^ c ^^^ d
    let k := if i < 20 then 0x5A827999 else if i < 40 then 0x6ED9EBA1
      else if i < 60 then 0x8F1BBCDC else 0xCA62C1D6
    [(rotl 32 a 5 + f + e + w.getD i 0 + k) % 2 ^ 32, a, rotl 32 b 30, c, d]
  | _ => s

/-- SHA-1 on one 64-byte block. -/
def sha1Compress (h : List Nat) (p : List Nat) : List Nat :=
  let w := sha1Schedule p
  List.zipWith (fun u v => (u + v) % 2 ^ 32) h ((List.range 80).foldl (sha1Step w) h)

/-- Round constants of SHA-224 and SHA-256. -/
def sha256K : List Nat := List.flatten [
  [0x428a2f98, 0x71374491, 0xb5c0fbcf, 0xe9b5dba5],
  [0x3956c25b, 0x59f111f1, 0x923f82a4, 0xab1c5ed5],
  [0xd807aa98, 0x12835b01, 0x243185be, 0x550c7dc3],
  [0x72be5d74, 0x80deb1fe, 0x9bdc06a7, 0xc19bf174],
  [0xe49b69c1, 0xefbe4786, 0x0fc19dc6, 0x240ca1cc],
  [0x2de92c6f, 0x4a7484aa, 0x5cb0a9dc, 0x76f988da],
  [0x983e5152, 0xa831c66d, 0xb00327c8, 0xbf597fc7],
  [0xc6e00bf3, 0xd5a79147, 0x06ca6351, 0x14292967],
  [0x27b70a85, 0x2e1b2138, 0x4d2c6dfc, 0x53380d13],
  [0x650a7354, 0x766a0abb, 0x81c2c92e, 0x92722c85],
  [0xa2bfe8a1, 0xa81a664b, 0xc24b8b70, 0xc76c51a3],
  [0xd192e819, 0xd6990624, 0xf40e3585, 0x106aa070],
  [0x19a4c116, 0x1e376c08, 0x2748774c, 0x34b0bcb5],
  [0x391c0cb3, 0x4ed8aa4a, 0x5b9cca4f, 0x682e6ff3],
  [0x748f82ee, 0x78a5636f, 0x84c87814, 0x8cc70208],
  [0x90befffa, 0xa4506ceb, 0xbef9a3f7, 0xc67178f2]]

/-- Message schedule of SHA-256: the sixteen words of the block extended to sixty-four. -/
def sha256Schedule (p : List Nat) : List Nat :=
  (List.range 48).foldl (fun w k =>
    let i := k + 16
    let v1 := w.getD (i - 2) 0
    let t1 := rotr 32 v1 17 ^^^ rotr 32 v1 19 ^^^ (v1 >>> 10)
    let v2 := w.getD (i - 15) 0
    let t2 := rotr 32 v2 7 ^^^ rotr 32 v2 18 ^^^ (v2 >>> 3)
    w ++ [(t1 + w.getD (i - 7) 0 + t2 + w.getD (i - 16) 0) % 2 ^ 32])
    ((List.range 16).map fun i => beWord32 p (i * 4))

/-- One of the 64 rounds of `sha256.blockGeneric`; `kw` is the pair `(_K[i], w[i])`. -/
def sha256Round (s : List Nat) (kw : Nat × Nat) : List Nat :=
  match s with
  | [a, b, c, d, e, f, g, h] =>
    let t1 := (h + (rotr 32 e 6 ^^^ rotr 32 e 11 ^^^ rotr 32 e 25)
      + ((e &&& f) ^^^ (not32 e &&& g)) + kw.1 + kw.2) % 2 ^ 32
    let t2 := ((rotr 32 a 2 ^^^ rotr 32 a 13 ^^^ rotr 32 a 22)
      + ((a &&& b) ^^^ (a &&& c) ^^^ (b &&& c))) % 2 ^ 32
    [(t1 + t2) % 2 ^ 32, a, b, c, (d + t1) % 2 ^ 32, e, f, g]
  | _ => s

/-- SHA-256 on one 64-byte block. -/
def sha256Compress (h : List Nat) (p : List Nat) : List Nat :=
  List.zipWith (fun u v => (u + v) % 2 ^ 32) h
    ((sha256K.zip (sha256Schedule p)).foldl sha256Round h)

/-- Round constants of SHA-384 and SHA-512. -/
def sha512K : List Nat := List.flatten [
  [0x428a2f98d728ae22, 0x7137449123ef65cd, 0xb5c0fbcfec4d3b2f, 0xe9b5dba58189dbbc],
  [0x3956c25bf348b538, 0x59f111f1b605d019, 0x923f82a4af194f9b, 0xab1c5ed5da6d8118],
  [0xd807aa98a3030242, 0x12835b0145706fbe, 0x243185be4ee4b28c, 0x550c7dc3d5ffb4e2],
  [0x72be5d74f27b896f, 0x80deb1fe3b1696b1, 0x9bdc06a725c71235, 0xc19bf174cf692694],
  [0xe49b69c19ef14ad2, 0xefbe4786384f25e3, 0x0fc19dc68b8cd5b5, 0x240ca1cc77ac9c65],
  [0x2de92c6f592b0275, 0x4a7484aa6ea6e483, 0x5cb0a9dcbd41fbd4, 0x76f988da831153b5],
  [0x983e5152ee66dfab, 0xa831c66d2db43210, 0xb00327c898fb213f, 0xbf597fc7beef0ee4],
  [0xc6e00bf33da88fc2, 0xd5a79147930aa725, 0x06ca6351e003826f, 0x142929670a0e6e70],
  [0x27b70a8546d22ffc, 0x2e1b21385c26c926, 0x4d2c6dfc5ac42aed, 0x53380d139d95b3df],
  [0x650a73548baf63de, 0x766a0abb3c77b2a8, 0x81c2c92e47edaee6, 0x92722c851482353b],
  [0xa2bfe8a14cf10364, 0xa81a664bbc423001, 0xc24b8b70d0f89791, 0xc76c51a30654be30],
  [0xd192e819d6ef5218, 0xd69906245565a910, 0xf40e35855771202a, 0x106aa07032bbd1b8],
  [0x19a4c116b8d2d0c8, 0x1e376c085141ab53, 0x2748774cdf8eeb99, 0x34b0bcb5e19b48a8],
  [0x391c0cb3c5c95a63, 0x4ed8aa4ae3418acb, 0x5b9cca4f7763e373, 0x682e6ff3d6b2b8a3],
  [0x748f82ee5defb2fc, 0x78a5636f43172f60, 0x84c87814a1f0ab72, 0x8cc702081a6439ec],
  [0x90befffa23631e28, 0xa4506cebde82bde9, 0xbef9a3f7b2c67915, 0xc67178f2e372532b],
  [0xca273eceea26619c, 0xd186b8c721c0c207, 0xeada7dd6cde0eb1e, 0xf57d4f7fee6ed178],
  [0x06f067aa72176fba, 0x0a637dc5a2c898a6, 0x113f9804bef90dae, 0x1b710b35131c471b],
  [0x28db77f523047d84, 0x32caab7b40c72493, 0x3c9ebe0a15c9bebc, 0x431d67c49c100d4c],
  [0x4cc5d4becb3e42b6, 0x597f299cfc657e2a, 0x5fcb6fab3ad6faec, 0x6c44198c4a475817]]

/-- Message schedule of SHA-512: the sixteen words of the block extended to eighty. -/
def sha512Schedule (p : List Nat) : List Nat :=
  (List.range 64).foldl (fun w k =>
    let i := k + 16
    let v1 := w.getD (i - 2) 0
    let t1 := rotr 64 v1 19 ^^^ rotr 64 v1 61 ^^^ (v1 >>> 6)
    let v2 := w.getD (i - 15) 0
    let t2 := rotr 64 v2 1 ^^^ rotr 64 v2 8 ^^^ (v2 >>> 7)
    w ++ [(t1 + w.getD (i - 7) 0 + t2 + w.getD (i - 16) 0) % 2 ^ 64])
    ((List.range 16).map fun i => beWord64 p (i * 8))

/-- One of the 80 rounds of `sha512.blockGeneric`; `kw` is the pair `(_K[i], w[i])`. -/
def sha512Round (s : List Nat) (kw : Nat × Nat) : List Nat :=
  match s with
  | [a, b, c, d, e, f, g, h] =>
    let t1 := (h + (rotr 64 e 14 ^^^ rotr 64 e 18 ^^^ rotr 64 e 41)
      + ((e &&& f) ^^^ (not64 e &&& g)) + kw.1 + kw.2) % 2 ^ 64
    let t2 := ((rotr 64 a 28 ^^^ rotr 64 a 34 ^^^ rotr 64 a 39)
      + ((a &&& b) ^^^ (a &&& c) ^^^ (b &&& c))) % 2 ^ 64
    [(t1 + t2) % 2 ^ 64, a, b, c, (d + t1) % 2 ^ 64, e, f, g]
  | _ => s

/-- SHA-512 on one 128-byte block. -/
def sha512Compress (h : List Nat) (p : List Nat) : List Nat :=
  List.zipWith (fun u v => (u + v) % 2 ^ 64) h
    ((sha512K.zip (sha512Schedule p)).foldl sha512Round h)

/-- Block size in bytes (`BlockSize`, the constant `chunk` of each package). -/
def HashKind.chunk : HashKind → Nat
  | .sha384 => 128
  | .sha512 => 128
  | _ => 64

/-- Initial chaining value set by `Reset`. -/
def HashKind.init : HashKind → List Nat
  | .md5 => [0x67452301, 0xefcdab89, 0x98badcfe, 0x10325476]
  | .sha1 => [0x67452301, 0xefcdab89, 0x98badcfe, 0x10325476, 0xc3d2e1f0]
  | .sha224 =>
    [0xc1059ed8, 0x367cd507, 0x3070dd17, 0xf70e5939, 0xffc00b31, 0x68581511, 0x64f98fa7, 0xbefa4fa4]
  | .sha256 =>
    [0x6a09e667, 0xbb67ae85, 0x3c6ef372, 0xa54ff53a, 0x510e527f, 0x9b05688c, 0x1f83d9ab, 0x5be0cd19]
  | .sha384 =>
    [0xcbbb9d5dc1059ed8, 0x629a292a367cd507, 0x9159015a3070dd17, 0x152fecd8f70e5939,
     0x67332667ffc00b31, 0x8eb44a8768581511, 0xdb0c2e0d64f98fa7, 0x47b5481dbefa4fa4]
  | .sha512 =>
    [0x6a09e667f3bcc908, 0xbb67ae8584caa73b, 0x3c6ef372fe94f82b, 0xa54ff53a5f1d36f1,
     0x510e527fade682d1, 0x9b05688c2b3e6c1f, 0x1f83d9abfb41bd6b, 0x5be0cd19137e2179]

/-- The block function of each accumulator on a single block. -/
def HashKind.compress : HashKind → List Nat → List Nat → List Nat
  | .md5 => md5Compress
  | .sha1 => sha1Compress
  | .sha224 => sha256Compress
  | .sha256 => sha256Compress
  | .sha384 => sha512Compress
  | .sha512 => sha512Compress

/-- The loop `for len(p) >= chunk` of the block functions, run `n` times: each pass
consumes the first `chunk` bytes of `p`. -/
def blockLoop (k : HashKind) : Nat → List Nat → List Nat → List Nat
  | 0, h, _ => h
  | n + 1, h, p => blockLoop k n (k.compress h (p.take k.chunk)) (p.drop k.chunk)

/-- The package function `block(d, p)`: absorbs every whole block of `p`. -/
def block (k : HashKind) (h : List Nat) (p : List Nat) : List Nat :=
  blockLoop k (p.length / k.chunk) h p

/-- The `digest` struct of the four packages: chaining value `h`, the buffered bytes
`x[:nx]` of an incomplete block, and the number `len` of bytes written (a `uint64`). -/
structure Digest where
  h : List Nat
  x : List Nat
  len : Nat
  deriving DecidableEq

/-- Accumulator as returned by `md5.New()`, `sha1.New()`, `sha256.New224()`,
`sha512.New384()`, `sha256.New()` and `sha512.New()`. -/
def New (k : HashKind) : Digest := ⟨k.init, [], 0⟩

/-- The method `Write` of a digest (the same code in the four packages). -/
def Digest.Write (k : HashKind) (d : Digest) (p : List Nat) : Digest :=
  let len := (d.len + p.length) % 2 ^ 64
  let s1 : List Nat × List Nat × List Nat :=
    if 0 < d.x.length then
      let n := min (k.chunk - d.x.length) p.length
      let x := d.x ++ p.take n
      if x.length = k.chunk then (block k d.h x, [], p.drop n) else (d.h, x, p.drop n)
    else (d.h, d.x, p)
  let s2 : List Nat × List Nat :=
    if k.chunk ≤ s1.2.2.length then
      let n := s1.2.2.length - s1.2.2.length % k.chunk
      (block k s1.1 (s1.2.2.take n), s1.2.2.drop n)
    else (s1.1, s1.2.2)
  ⟨s2.1, if 0 < s2.2.length then s2.2 else s1.2.1, len⟩

/-- The padding that `checkSum` writes: a byte `0x80`, zero bytes, and the length in bits. -/
def padding (k : HashKind) (len : Nat) : List Nat :=
  match k with
  | .md5 =>
    let pad := (2 ^ 64 + 55 - len) % 2 ^ 64 % 64
    0x80 :: List.replicate pad 0 ++ putLE64 (len <<< 3 % 2 ^ 64)
  | .sha384 | .sha512 =>
    let t := if len % 128 < 112 then 112 - len % 128 else 128 + 112 - len % 128
    0x80 :: List.replicate (t - 1) 0 ++ List.replicate 8 0 ++ putBE64 (len <<< 3 % 2 ^ 64)
  | _ =>
    let t := if len % 64 < 56 then 56 - len % 64 else 64 + 56 - len % 64
    0x80 :: List.replicate (t - 1) 0 ++ putBE64 (len <<< 3 % 2 ^ 64)

/-- Serialisation of the final chaining value into the digest bytes. -/
def digestBytes (k : HashKind) (h : List Nat) : List Nat :=
  match k with
  | .md5 => h.flatMap putLE32
  | .sha1 => h.flatMap putBE32
  | .sha224 => (h.take 7).flatMap putBE32
  | .sha256 => h.flatMap putBE32
  | .sha384 => (h.take 6).flatMap putBE64
  | .sha512 => h.flatMap putBE64

/-- The method `checkSum`: pads, absorbs the padding and serialises the chaining value. -/
def Digest.checkSum (k : HashKind) (d : Digest) : List Nat :=
  digestBytes k (d.Write k (padding k d.len)).h

/-- The call `Sum(nil)`: `checkSum` on a copy of the digest, which itself is unchanged. -/
def Digest.Sum (k : HashKind) (d : Digest) : List Nat := d.checkSum k

/-- The hash of a whole message: a fresh accumulator, one `Write`, then `Sum`
(Go's `md5.Sum`, `sha1.Sum`, `sha256.Sum224`, `sha512.Sum384`, `sha256.Sum256`,
`sha512.Sum512`). -/
def hashSum (k : HashKind) (msg : List Nat) : List Nat := ((New k).Write k msg).Sum k

/-! ## `encoding/hex` -/

/-- The table `hextable`. -/
def hextable : List Char := "0123456789abcdef".toList

/-- The function `hex.EncodeToString`. -/
def EncodeToString (src : List Nat) : List Char :=
  src.flatMap fun v => [hextable.getD (v >>> 4) '0', hextable.getD (v &&& 0x0f) '0']

/-! ## `strings.ToLower` -/

/-- The function `unicode.ToLower`: runes up to `MaxASCII` are handled by the letter test
of the Go source; for the others Go consults the case tables of the `unicode` package,
which enter here as the parameter `tbl` (the lower-case mapping of a rune above
`MaxASCII`). -/
def unicodeToLower (tbl : Char → Char) (r : Char) : Char :=
  if r.toNat ≤ 0x7f then
    if 'A'.toNat ≤ r.toNat ∧ r.toNat ≤ 'Z'.toNat then Char.ofNat (r.toNat + ('a'.toNat - 'A'.toNat))
    else r
  else tbl r

/-- The function `strings.ToLower`: every rune mapped through `unicode.ToLower` (the
fast path of the Go source for strings of ASCII bytes computes the same string). -/
def ToLower (tbl : Char → Char) (s : List Char) : List Char := s.map (unicodeToLower tbl)

/-! ## `fmt` -/

/-- The function `fmt.Sprintf` for the verbs that occur in the program's format strings:
`%s` with string operands, and `%%`. A `%s` without operand prints `%!s(MISSING)` and
operands left over are reported in an `%!(EXTRA ...)` group, as in Go. -/
def Sprintf : List Char → List (List Char) → List Char
  | [], [] => []
  | [], a :: as =>
    "%!(EXTRA ".toList ++ ", ".toList.intercalate ((a :: as).map fun v => "string=".toList ++ v)
      ++ [')']
  | ['%'], _ => "%!(NOVERB)".toList
  | '%' :: '%' :: rest, as => '%' :: Sprintf rest as
  | '%' :: 's' :: rest, [] => "%!s(MISSING)".toList ++ Sprintf rest []
  | '%' :: 's' :: rest, a :: as => a ++ Sprintf rest as
  | c :: rest, as => c :: Sprintf rest as

/-- The white-space test `isSpace` of the scanner of package `fmt` (its table `space`). -/
def isSpace (r : Char) : Bool :=
  let n := r.toNat
  (0x09 ≤ n && n ≤ 0x0d) || n == 0x20 || n == 0x85 || n == 0xa0 || n == 0x1680
    || (0x2000 ≤ n && n ≤ 0x200a) || n == 0x2028 || n == 0x2029 || n == 0x202f
    || n == 0x205f || n == 0x3000

/-- The method `SkipSpace` of the scanner in a call of `Scanln` (newlines do not count as
space): the flag tells whether it returned normally (`false`: it reported
`unexpected newline`), the list is the input left unread. -/
def SkipSpace : List Char → Bool × List Char
  | [] => (true, [])
  | r :: rest =>
    if r = '\r' ∧ rest.head? = some '\n' then SkipSpace rest
    else if r = '\n' then (false, rest)
    else if !isSpace r then (true, r :: rest)
    else SkipSpace rest

/-- The loop of the method `token`: reads runes up to the next white space or the end of
the input, and returns them with the input left unread. -/
def token : List Char → List Char × List Char
  | [] => ([], [])
  | r :: rest =>
    if isSpace r then ([], r :: rest)
    else ((token rest).1.cons r, (token rest).2)

/-- The closing loop of `doScan` for `Scanln`: after the last operand only white space may
precede the newline or the end of the input. The flag is `false` for
`expected newline`. -/
def endOfLine : List Char → Bool × List Char
  | [] => (true, [])
  | r :: rest =>
    if r = '\n' then (true, rest)
    else if !isSpace r then (false, rest)
    else endOfLine rest

/-- Outcome of a call `fmt.Scanln(&input)`: in both cases with the standard input left
unread. -/
inductive ScanResult where
  | ok (input : List Char) (rest : List Char)
  | err (rest : List Char)
  deriving DecidableEq

/-- The call `fmt.Scanln(&input)` for a string operand, on the runes of standard input:
`convertString` skips white space, fails at the end of the input, and takes the next
token; then the line must end. (The scanner's budget of `2 ^ 30` runes per call is not
represented.) -/
def Scanln (inp : List Char) : ScanResult :=
  match SkipSpace inp with
  | (false, rest) => .err rest
  | (true, []) => .err []
  | (true, r :: rest) =>
    match SkipSpace (r :: rest) with
    | (false, rest2) => .err rest2
    | (true, inp2) =>
      match endOfLine (token inp2).2 with
      | (true, rest3) => .ok (token inp2).1 rest3
      | (false, rest3) => .err rest3

/-! ## The process state -/

/-- What a file opened with `os.Open` delivers to `io.Copy`: the successive non-final
results of `Read`, and whether the stream ends with an error instead of `io.EOF`. -/
structure Stream where
  chunks : List (List Nat)
  failed : Bool
  deriving DecidableEq

/-- System calls on the file system, as recorded in the log of the world. -/
inductive FsCall where
  | statCall (path : List Char)
  | openCall (path : List Char)
  | closeCall (path : List Char)
  deriving DecidableEq

/-- The state of the process and of its environment (the arguments `os.Args`, which never
change, are passed to `main` directly).

* `stdin` is the unread standard input, `stdout` what has been written;
* `stat path` is the result of `os.Stat`: `none` for an error, else whether
  `Mode().IsRegular()` holds;
* `openFile path` is the result of `os.Open`: `none` for an error;
* `hashes` holds the state of the six accumulators created for the global `algorithms`;
* `fsLog` records the file-system calls made so far. -/
structure World where
  stdin : List Char
  stdout : List Char
  stat : List Char → Option Bool
  openFile : List Char → Option Stream
  hashes : HashKind → Digest
  fsLog : List FsCall

/-- How a process stops other than by returning: `os.Exit(code)` or a panic. -/
inductive Halt where
  | exit (code : Nat)
  | panic
  deriving DecidableEq

/-- Result of a function that may stop the process. -/
inductive Res (α : Type) where
  | ok (val : α) (w : World)
  | halt (h : Halt) (w : World)

/-- The world after the run, however it ended. -/
def Res.world {α : Type} : Res α → World
  | .ok _ w => w
  | .halt _ w => w

/-- The value returned, if the function returned. -/
def Res.value? {α : Type} : Res α → Option α
  | .ok v _ => some v
  | .halt _ _ => none

/-- The way the process stopped, if the function did not return. -/
def Res.halted? {α : Type} : Res α → Option Halt
  | .ok _ _ => none
  | .halt h _ => some h

/-! ## `main.go` -/

/-- The constant `DefaultAlg`. -/
def DefaultAlg : List Char := "sha256".toList

/-- The type `Algorithm`; the field `hash` refers to one of the six accumulators. -/
structure Algorithm where
  name : List Char
  hash : HashKind
  deriving DecidableEq

/-- The type `Color` is an `int`. -/
abbrev Color := Int

def ResetColor : Color := 0
def Cyan : Color := 36
def DefaultColor : Color := 39
def DarkGray : Color := 90
def LightRed : Color := 91
def LightGreen : Color := 92

/-- The global `algorithms`. -/
def algorithms : List Algorithm := [
  ⟨"md5".toList, .md5⟩,
  ⟨"sha1".toList, .sha1⟩,
  ⟨"sha224".toList, .sha224⟩,
  ⟨"sha384".toList, .sha384⟩,
  ⟨"sha256".toList, .sha256⟩,
  ⟨"sha512".toList, .sha512⟩]

/-- The function `getAlgorithm`: the first entry whose name equals the lower-cased
argument, `none` for `nil`. -/
def getAlgorithm (tbl : Char → Char) (algorithm : List Char) : Option HashKind :=
  (algorithms.find? fun a => ToLower tbl algorithm = a.name).map fun a => a.hash

/-- The function `print`: the text, formatted when operands are given, between the escape
sequence of the colour and the reset sequence. -/
def print (text : List Char) (color : Color) (f : List (List Char)) (w : World) : World :=
  let format := if f.length = 0 then text else Sprintf text f
  { w with stdout := w.stdout ++
      ("\x1b[0;".toList ++ (toString color).toList ++ ['m'] ++ format ++ "\x1b[0m".toList) }

/-- The function `getUserInput`. -/
def getUserInput (w : World) : Res (List Char) :=
  match Scanln w.stdin with
  | .err rest => .halt (.exit 1) (print "Invalid input".toList 31 [] { w with stdin := rest })
  | .ok input rest => .ok input { w with stdin := rest }

/-- The function `printChecksums`. -/
def printChecksums (checksum : List Char) (w : World) : World :=
  let w1 := print "Checksum\t: ".toList DefaultColor [] w
  let w2 := checksum.foldl (fun v e =>
    if '0'.toNat ≤ e.toNat ∧ e.toNat ≤ '9'.toNat then print "%s".toList Cyan [[e]] v
    else print "%s".toList DefaultColor [[e]] v) w1
  print "\n".toList ResetColor [] w2

/-- The call `io.Copy(algorithm, file)`: every non-empty result of `Read` is written to
the accumulator. -/
def ioCopy (k : HashKind) (d : Digest) (chunks : List (List Nat)) : Digest :=
  chunks.foldl (fun acc c => if 0 < c.length then acc.Write k c else acc) d

/-- The function `fileChecksum`. -/
def fileChecksum (filePath : List Char) (algorithm : HashKind) (w : World) : Res (List Char) :=
  let w1 : World := { w with fsLog := w.fsLog ++ [FsCall.statCall filePath] }
  match w1.stat filePath with
  | some true =>
    let w2 : World := { w1 with fsLog := w1.fsLog ++ [FsCall.openCall filePath] }
    match w2.openFile filePath with
    | none => .halt .panic w2
    | some file =>
      let d := ioCopy algorithm (w2.hashes algorithm) file.chunks
      let w3 : World := { w2 with
        hashes := fun k => if k = algorithm then d else w2.hashes k
        fsLog := w2.fsLog ++ [FsCall.closeCall filePath] }
      if file.failed then .halt .panic w3
      else .ok (EncodeToString (d.Sum algorithm)) w3
  | _ =>
    .halt (.exit 1)
      (print "Input contains invalid filepath. (or file do not exist)\n".toList LightRed [] w1)

/-- The function `printReport`. -/
def printReport (filePath : List Char) (alg : HashKind) (w : World) : Res Unit :=
  match fileChecksum filePath alg w with
  | .halt h w1 => .halt h w1
  | .ok checksum w1 =>
    let w2 := print "Compare to checksum: ".toList DefaultColor [] (printChecksums checksum w1)
    match getUserInput w2 with
    | .halt h w3 => .halt h w3
    | .ok inputChecksum w3 =>
      let w4 := printChecksums inputChecksum (printChecksums checksum w3)
      if checksum = inputChecksum then
        .ok () (print "✓ Checksums match\n".toList LightGreen [] w4)
      else
        .ok () (print "✕ Checksums DO NOT match\n".toList LightRed [] w4)

/-- The usage help that `main` prints when no argument is given. -/
def printUsage (w : World) : World :=
  let w1 := print "/**\n".toList DarkGray [] w
  let w2 := print " * You can specify algorithm with cli argument\n".toList DarkGray [] w1
  let w3 := print " * Otherwise by default SHA256 will be used\n".toList DarkGray [] w2
  let w4 := algorithms.foldl (fun v a => print " * ./gohash -a %s\n".toList DarkGray [a.name] v) w3
  print " */\n".toList DarkGray [] w4

/-- The function `main`, for the arguments `args` (the slice `os.Args`, program name
first); returning normally is `Res.ok`. -/
def main (tbl : Char → Char) (args : List (List Char)) (w : World) : Res Unit :=
  let argc := args.length
  let w1 := if argc = 1 then printUsage w else w
  let alg := if argc = 2 then args.getD 1 [] else DefaultAlg
  match getAlgorithm tbl alg with
  | none => .ok () (print "Invalid algorithm\n".toList LightRed [] w1)
  | some algorithm =>
    let w2 : World := { w1 with stdout := w1.stdout ++
      "Drag and drop a file to make a checksum for it: ".toList }
    match getUserInput w2 with
    | .halt h w3 => .halt h w3
    | .ok filePath w3 => printReport filePath algorithm w3

/-! ## Definitions used to state the properties -/


/-- Upper-case form of an ASCII letter; every other rune is left alone. -/
def asciiUpper (c : Char) : Char :=
  if 'a'.toNat ≤ c.toNat ∧ c.toNat ≤ 'z'.toNat then Char.ofNat (c.toNat - 32) else c

/-- Case-insensitive exact match of two strings, in the words of the specification: the
strings have the same runes once letter case is disregarded. -/
def equalIgnoreCase (s t : List Char) : Bool := s.map asciiUpper == t.map asciiUpper

/-- The fact about the Unicode case tables the resolution depends on: the lower-case
mapping sends a rune above `MaxASCII` either above `MaxASCII` again or to one of the
letters `i` (from U+0130) and `k` (from the Kelvin sign U+212A). -/
def asciiSafe (tbl : Char → Char) : Prop :=
  ∀ r : Char, 0x7f < r.toNat → 0x7f < (tbl r).toNat ∨ tbl r = 'i' ∨ tbl r = 'k'

/-- A lower-case mapping with the Latin-1 letters and the two runes whose lower-case form
is an ASCII letter; it serves as the table of the concrete examples. -/
def latinLower (r : Char) : Char :=
  if r.toNat = 0x130 then 'i'
  else if r.toNat = 0x212a then 'k'
  else if 0xc0 ≤ r.toNat ∧ r.toNat ≤ 0xde ∧ r.toNat ≠ 0xd7 then Char.ofNat (r.toNat + 32)
  else r

/-- The runes that occur in the names of the registry. -/
def nameChars : List Char := "md5sha1248".toList ++ "36".toList


/-- What `Write` amounts to for a digest whose buffer holds less than a block: the buffered
bytes followed by `p` are cut after the last whole block, the blocks are absorbed and the
remainder is buffered. -/
def absorb (k : HashKind) (d : Digest) (p : List Nat) : Digest :=
  ⟨block k d.h ((d.x ++ p).take ((d.x ++ p).length - (d.x ++ p).length % k.chunk)),
    (d.x ++ p).drop ((d.x ++ p).length - (d.x ++ p).length % k.chunk),
    (d.len + p.length) % 2 ^ 64⟩

/-- A sample environment. `/tmp/abc` is a regular file with the bytes `abc`, read in two
pieces; `/tmp/empty` is a regular file of length zero; `/tmp/locked` is a regular file
that cannot be opened; `/tmp/broken` is a regular file whose reading fails after one
byte; `/tmp` is a directory; no other path exists. The accumulators are fresh and nothing
has been written. -/
def sampleWorld (input : List Char) : World where
  stdin := input
  stdout := []
  stat := fun p =>
    if p = "/tmp/abc".toList ∨ p = "/tmp/empty".toList ∨ p = "/tmp/locked".toList
        ∨ p = "/tmp/broken".toList then some true
    else if p = "/tmp".toList then some false
    else none
  openFile := fun p =>
    if p = "/tmp/abc".toList then some ⟨[[0x61, 0x62], [0x63]], false⟩
    else if p = "/tmp/empty".toList then some ⟨[], false⟩
    else if p = "/tmp/broken".toList then some ⟨[[0x61]], true⟩
    else none
  hashes := New
  fsLog := []

/-- Rendering of one character of a digest: the character between the escape sequence of
its colour, cyan (36) for an ASCII digit and the default colour (39) otherwise, and the
reset sequence. -/
def segment (e : Char) : List Char :=
  if '0'.toNat ≤ e.toNat ∧ e.toNat ≤ '9'.toNat then
    "\x1b[0;36m".toList ++ e :: "\x1b[0m".toList
  else "\x1b[0;39m".toList ++ e :: "\x1b[0m".toList

/-- Removal of escape sequences: with the flag set the scan is inside a sequence, which
runs from the escape character up to the next `m`. -/
def stripAux : Bool → List Char → List Char
  | _, [] => []
  | false, c :: r => if c = '\x1b' then stripAux true r else c :: stripAux false r
  | true, c :: r => if c = 'm' then stripAux false r else stripAux true r

/-- The text that remains when the escape sequences are stripped. -/
def stripEscapes (s : List Char) : List Char := stripAux false s

/-- What `printChecksums` writes for a digest: label, segments, newline. -/
def rendered (d : List Char) : List Char :=
  "\x1b[0;39mChecksum\t: \x1b[0m".toList ++ d.flatMap segment ++ "\x1b[0;0m\n\x1b[0m".toList

/-- White space within a line: space characters other than the newline. -/
def blank (l : List Char) : Prop := ∀ c ∈ l, isSpace c = true ∧ c ≠ '\n'

instance (l : List Char) : Decidable (blank l) :=
  inferInstanceAs (Decidable (∀ c ∈ l, isSpace c = true ∧ c ≠ '\n'))

/-- A string without any white space. -/
def spaceFree (l : List Char) : Prop := ∀ c ∈ l, isSpace c = false

instance (l : List Char) : Decidable (spaceFree l) :=
  inferInstanceAs (Decidable (∀ c ∈ l, isSpace c = false))

/-! ## Resolution of algorithm names -/

theorem ascii_table : ∀ n < 128, ∀ c ∈ nameChars,
    ((if 'A'.toNat ≤ (Char.ofNat n).toNat ∧ (Char.ofNat n).toNat ≤ 'Z'.toNat then
       Char.ofNat ((Char.ofNat n).toNat + ('a'.toNat - 'A'.toNat)) else Char.ofNat n) = c
     ↔ asciiUpper (Char.ofNat n) = asciiUpper c) := by
  decide

theorem nameChars_ascii : ∀ c ∈ nameChars,
    c.toNat ≤ 0x7f ∧ (asciiUpper c).toNat ≤ 0x7f ∧ c ≠ 'i' ∧ c ≠ 'k' := by
  decide

theorem unicodeToLower_eq_iff (tbl : Char → Char) (hT : asciiSafe tbl) (r c : Char)
    (hc : c ∈ nameChars) : unicodeToLower tbl r = c ↔ asciiUpper r = asciiUpper c := by
  by_cases hr : r.toNat ≤ 0x7f
  · have h := ascii_table r.toNat (by omega) c hc
    rw [Char.ofNat_toNat] at h
    simpa [unicodeToLower, hr] using h
  · obtain ⟨h1, h2, h3, h4⟩ := nameChars_ascii c hc
    have hup : asciiUpper r = r := by
      have : ¬ ('a'.toNat ≤ r.toNat ∧ r.toNat ≤ 'z'.toNat) := by
        have : 'z'.toNat = 122 := by decide
        omega
      unfold asciiUpper
      rw [if_neg this]
    simp only [unicodeToLower, hr, if_false, hup]
    constructor
    · intro h
      rcases hT r (by omega) with h5 | h5 | h5
      · rw [h] at h5; omega
      · rw [h] at h5; exact absurd h5 h3
      · rw [h] at h5; exact absurd h5 h4
    · intro h
      rw [← h] at h2; omega

theorem ToLower_eq_iff (tbl : Char → Char) (hT : asciiSafe tbl) :
    ∀ (s n : List Char), (∀ c ∈ n, c ∈ nameChars) →
      (ToLower tbl s = n ↔ equalIgnoreCase s n = true)
  | [], [], _ => by simp [ToLower, equalIgnoreCase]
  | [], _ :: _, _ => by simp [ToLower, equalIgnoreCase]
  | _ :: _, [], _ => by simp [ToLower, equalIgnoreCase]
  | r :: s, c :: n, h => by
    have ih := ToLower_eq_iff tbl hT s n (fun x hx => h x (List.mem_cons_of_mem _ hx))
    have hc := unicodeToLower_eq_iff tbl hT r c (h c (List.mem_cons_self _ _))
    simp only [ToLower, equalIgnoreCase, List.map_cons, List.cons.injEq, beq_iff_eq] at ih ⊢
    rw [hc, ih]

theorem names_plain : ∀ a ∈ algorithms, ∀ c ∈ a.name, c ∈ nameChars := by decide

theorem find_by_name : ∀ a ∈ algorithms,
    (algorithms.find? fun b => decide (a.name = b.name)) = some a := by decide

theorem getAlgorithm_of_match (tbl : Char → Char) (hT : asciiSafe tbl) (s : List Char) :
    ∀ a ∈ algorithms, equalIgnoreCase s a.name = true → getAlgorithm tbl s = some a.hash := by
  intro a ha h
  have hl := (ToLower_eq_iff tbl hT s a.name (names_plain a ha)).2 h
  simp only [getAlgorithm, hl, find_by_name a ha, Option.map_some']

theorem getAlgorithm_of_no_match (tbl : Char → Char) (hT : asciiSafe tbl) (s : List Char)
    (h : ∀ a ∈ algorithms, equalIgnoreCase s a.name = false) : getAlgorithm tbl s = none := by
  have : (algorithms.find? fun a => decide (ToLower tbl s = a.name)) = none := by
    rw [List.find?_eq_none]
    intro a ha
    have := h a ha
    simp only [decide_eq_true_eq]
    intro hl
    rw [(ToLower_eq_iff tbl hT s a.name (names_plain a ha)).1 hl] at this
    exact absurd this (by decide)
  simp [getAlgorithm, this]

/-- C1 (`getAlgorithm`): resolution succeeds exactly for the strings that match one of
md5, sha1, sha224, sha384, sha256, sha512 case-insensitively; a string matching the name
of a registry entry resolves to the accumulator of that entry, so SHA256 and sha256
resolve to the same one; every other string, the empty one included, gives `none`. -/
theorem C1_getAlgorithm_resolves (tbl : Char → Char) (hT : asciiSafe tbl) (s : List Char) :
    ((getAlgorithm tbl s).isSome = true ↔
      ∃ n ∈ ["md5", "sha1", "sha224", "sha384", "sha256", "sha512"],
        equalIgnoreCase s n.toList = true) ∧
    (∀ a ∈ algorithms, equalIgnoreCase s a.name = true → getAlgorithm tbl s = some a.hash) ∧
    ((∀ a ∈ algorithms, equalIgnoreCase s a.name = false) → getAlgorithm tbl s = none) ∧
    getAlgorithm tbl "SHA256".toList = some HashKind.sha256 ∧
    getAlgorithm tbl "sha256".toList = some HashKind.sha256 ∧
    getAlgorithm tbl [] = none := by
  have key := getAlgorithm_of_match tbl hT
  have none_of := getAlgorithm_of_no_match tbl hT
  refine ⟨?_, key s, none_of s, ?_, ?_, ?_⟩
  · constructor
    · intro h
      by_contra hne
      have hall : ∀ a ∈ algorithms, equalIgnoreCase s a.name = false := by
        intro a ha
        by_contra h2
        apply hne
        simp only [algorithms, List.mem_cons, List.mem_singleton, List.not_mem_nil, or_false] at ha
        simp only [Bool.not_eq_false] at h2
        rcases ha with rfl | rfl | rfl | rfl | rfl | rfl
        · exact ⟨"md5", by simp, h2⟩
        · exact ⟨"sha1", by simp, h2⟩
        · exact ⟨"sha224", by simp, h2⟩
        · exact ⟨"sha384", by simp, h2⟩
        · exact ⟨"sha256", by simp, h2⟩
        · exact ⟨"sha512", by simp, h2⟩
      rw [none_of s hall] at h
      exact absurd h (by decide)
    · rintro ⟨n, hn, h⟩
      simp only [List.mem_cons, List.mem_singleton, List.not_mem_nil, or_false] at hn
      rcases hn with rfl | rfl | rfl | rfl | rfl | rfl
      · rw [key s ⟨"md5".toList, .md5⟩ (by decide) h]; rfl
      · rw [key s ⟨"sha1".toList, .sha1⟩ (by decide) h]; rfl
      · rw [key s ⟨"sha224".toList, .sha224⟩ (by decide) h]; rfl
      · rw [key s ⟨"sha384".toList, .sha384⟩ (by decide) h]; rfl
      · rw [key s ⟨"sha256".toList, .sha256⟩ (by decide) h]; rfl
      · rw [key s ⟨"sha512".toList, .sha512⟩ (by decide) h]; rfl
  · exact key _ ⟨"sha256".toList, .sha256⟩ (by decide) (by decide)
  · exact key _ ⟨"sha256".toList, .sha256⟩ (by decide) (by decide)
  · exact none_of _ (by decide)

set_option maxRecDepth 100000 in
theorem latinLower_table : ∀ n < 0xdf, 0xc0 ≤ n → 0x7f < (Char.ofNat (n + 32)).toNat := by
  decide

theorem latinLower_asciiSafe : asciiSafe latinLower := by
  intro r hr
  unfold latinLower
  split
  · right; left; rfl
  · split
    · right; right; rfl
    · split
      · left
        rename_i h
        exact latinLower_table r.toNat (by omega) h.1
      · left; exact hr

/-- Witness of C1 at the string `Sha1` with the table `latinLower`. -/
theorem C1_getAlgorithm_resolves_witness :
    asciiSafe latinLower ∧ getAlgorithm latinLower "Sha1".toList = some HashKind.sha1 :=
  ⟨latinLower_asciiSafe,
    (C1_getAlgorithm_resolves latinLower latinLower_asciiSafe "Sha1".toList).2.1
      ⟨"sha1".toList, .sha1⟩ (by decide) (by decide)⟩

/-! ## The accumulators absorb a stream independently of its division into chunks -/

theorem chunk_pos (k : HashKind) : 0 < k.chunk := by cases k <;> decide

theorem blockLoop_append (k : HashKind) : ∀ (n m : Nat) (h p q : List Nat),
    p.length = n * k.chunk →
      blockLoop k (n + m) h (p ++ q) = blockLoop k m (blockLoop k n h p) q
  | 0, m, h, p, q, hp => by
    have : p = [] := List.length_eq_zero.mp (by simpa using hp)
    subst this
    simp [blockLoop]
  | n + 1, m, h, p, q, hp => by
    have hc : k.chunk ≤ p.length := by
      rw [hp, Nat.add_mul]; omega
    have hd : (p.drop k.chunk).length = n * k.chunk := by
      rw [List.length_drop, hp, Nat.add_mul]; omega
    have e : n + 1 + m = (n + m) + 1 := by omega
    rw [e]
    simp only [blockLoop]
    rw [List.take_append_of_le_length hc, List.drop_append_of_le_length hc]
    exact blockLoop_append k n m _ _ q hd

theorem block_nil (k : HashKind) (h : List Nat) : block k h [] = h := by
  simp [block, blockLoop]

theorem block_append (k : HashKind) (h p q : List Nat) (hp : k.chunk ∣ p.length) :
    block k h (p ++ q) = block k (block k h p) q := by
  obtain ⟨n, hn⟩ := hp
  have hc := chunk_pos k
  have h1 : p.length / k.chunk = n := by
    rw [hn]; exact Nat.mul_div_cancel_left n hc
  have h2 : (p ++ q).length / k.chunk = n + q.length / k.chunk := by
    rw [List.length_append, hn, Nat.add_comm, Nat.add_mul_div_left _ _ hc, Nat.add_comm]
  unfold block
  rw [h1, h2]
  exact blockLoop_append k n _ h p q (by rw [hn, Nat.mul_comm])

/-- The second half of `Write`, on the bytes `p` that remain once the buffer is empty:
the whole blocks of `p` are absorbed and the rest is buffered. -/
theorem write_tail (k : HashKind) (h p : List Nat) :
    (if k.chunk ≤ p.length then
        (block k h (p.take (p.length - p.length % k.chunk)),
          p.drop (p.length - p.length % k.chunk))
      else (h, p)) =
    (block k h (p.take (p.length - p.length % k.chunk)),
      p.drop (p.length - p.length % k.chunk)) := by
  split
  · rfl
  · rename_i hlt
    have : p.length % k.chunk = p.length := Nat.mod_eq_of_lt (by omega)
    simp [this, block_nil]

theorem if_pos_length_self (l : List Nat) : (if 0 < l.length then l else []) = l := by
  cases l <;> simp

theorem Write_eq_absorb (k : HashKind) (d : Digest) (p : List Nat)
    (hx : d.x.length < k.chunk) : d.Write k p = absorb k d p := by
  have hc := chunk_pos k
  by_cases h0 : 0 < d.x.length
  · by_cases hfill : k.chunk - d.x.length ≤ p.length
    · have hmin : min (k.chunk - d.x.length) p.length = k.chunk - d.x.length :=
        Nat.min_eq_left hfill
      have hlen : (d.x ++ p.take (k.chunk - d.x.length)).length = k.chunk := by
        rw [List.length_append, List.length_take]; omega
      simp only [Digest.Write, if_pos h0, hmin, if_pos hlen]
      rw [write_tail]
      simp only [if_pos_length_self, absorb]
      have ht : d.x ++ p = (d.x ++ p.take (k.chunk - d.x.length))
          ++ p.drop (k.chunk - d.x.length) := by
        rw [List.append_assoc, List.take_append_drop]
      generalize d.x ++ p.take (k.chunk - d.x.length) = x1 at hlen ht
      generalize p.drop (k.chunk - d.x.length) = p1 at ht
      have hn : (x1 ++ p1).length - (x1 ++ p1).length % k.chunk
          = x1.length + (p1.length - p1.length % k.chunk) := by
        have := Nat.mod_le p1.length k.chunk
        rw [List.length_append, hlen, Nat.add_mod_left]
        omega
      rw [ht, hn, List.take_append, List.drop_append,
        block_append k d.h x1 _ (by rw [hlen])]
    · have hmin : min (k.chunk - d.x.length) p.length = p.length :=
        Nat.min_eq_right (by omega)
      have hlen : ¬ (d.x ++ p.take p.length).length = k.chunk := by
        rw [List.length_append, List.length_take]; omega
      simp only [Digest.Write, if_pos h0, hmin, if_neg hlen]
      have hmod : (d.x.length + p.length) % k.chunk = d.x.length + p.length :=
        Nat.mod_eq_of_lt (by omega)
      simp [absorb, hmod, block_nil]
  · have hnil : d.x = [] := List.length_eq_zero.mp (by omega)
    simp only [Digest.Write, if_neg h0]
    rw [write_tail]
    simp only [absorb, hnil, List.nil_append, if_pos_length_self]

theorem absorb_buffer_lt (k : HashKind) (d : Digest) (p : List Nat) :
    (absorb k d p).x.length < k.chunk := by
  have hc := chunk_pos k
  have := Nat.mod_lt (d.x ++ p).length hc
  have := Nat.mod_le (d.x ++ p).length k.chunk
  simp only [absorb, List.length_drop]
  omega

/-- Writing `a` and then `b` leaves the digest in the state that writing `a ++ b` at once
produces. -/
theorem Write_append (k : HashKind) (d : Digest) (a b : List Nat)
    (hx : d.x.length < k.chunk) : (d.Write k a).Write k b = d.Write k (a ++ b) := by
  have hc := chunk_pos k
  rw [Write_eq_absorb k d a hx, Write_eq_absorb k d (a ++ b) hx,
    Write_eq_absorb k _ b (absorb_buffer_lt k d a)]
  simp only [absorb]
  rw [← List.append_assoc]
  generalize d.x ++ a = t
  have hcut : ((t.drop (t.length - t.length % k.chunk)) ++ b).length % k.chunk
      = (t ++ b).length % k.chunk := by
    have := Nat.mod_le t.length k.chunk
    rw [List.length_append, List.length_append, List.length_drop]
    have e : t.length - (t.length - t.length % k.chunk) = t.length % k.chunk := by omega
    rw [e, Nat.add_mod, Nat.mod_mod, ← Nat.add_mod]
  have hdvd : k.chunk ∣ (t.take (t.length - t.length % k.chunk)).length := by
    have := Nat.mod_le t.length k.chunk
    rw [List.length_take, Nat.min_eq_left (by omega)]
    exact Nat.dvd_sub_mod _
  have hsplit : t ++ b = t.take (t.length - t.length % k.chunk)
      ++ (t.drop (t.length - t.length % k.chunk) ++ b) := by
    rw [← List.append_assoc, List.take_append_drop]
  have hn : (t ++ b).length - (t ++ b).length % k.chunk
      = (t.take (t.length - t.length % k.chunk)).length
        + ((t.drop (t.length - t.length % k.chunk) ++ b).length
          - (t.drop (t.length - t.length % k.chunk) ++ b).length % k.chunk) := by
    have h1 := Nat.mod_le t.length k.chunk
    have h2 := Nat.mod_le (t ++ b).length k.chunk
    have h3 : (t ++ b).length % k.chunk ≤ t.length % k.chunk + b.length := by
      rw [List.length_append, Nat.add_mod]
      exact le_trans (Nat.mod_le _ _) (Nat.add_le_add_left (Nat.mod_le _ _) _)
    rw [hcut, List.length_take, Nat.min_eq_left (by omega)]
    simp only [List.length_append, List.length_drop] at h2 h3 ⊢
    omega
  rw [hn]
  conv_lhs => rw [← block_append k d.h _ _ hdvd]
  conv_rhs => rw [hsplit, List.take_append, List.drop_append]
  simp only [Digest.mk.injEq, true_and]
  rw [List.length_append]
  omega

/-- A digest as the packages maintain it: the buffer holds less than a block and the
byte count fits a `uint64`. -/
theorem New_valid (k : HashKind) : (New k).x.length < k.chunk ∧ (New k).len < 2 ^ 64 := by
  cases k <;> decide

theorem Write_nil (k : HashKind) (d : Digest) (hx : d.x.length < k.chunk)
    (hl : d.len < 2 ^ 64) : d.Write k [] = d := by
  rw [Write_eq_absorb k d [] hx]
  have hmod : d.x.length % k.chunk = d.x.length := Nat.mod_eq_of_lt hx
  have hl2 : d.len % 2 ^ 64 = d.len := Nat.mod_eq_of_lt hl
  simp only [absorb, List.append_nil, hmod, Nat.sub_self, List.take_zero, block_nil,
    List.drop_zero, List.length_nil, Nat.add_zero, hl2]

theorem Write_valid (k : HashKind) (d : Digest) (p : List Nat) (hx : d.x.length < k.chunk) :
    (d.Write k p).x.length < k.chunk ∧ (d.Write k p).len < 2 ^ 64 := by
  rw [Write_eq_absorb k d p hx]
  exact ⟨absorb_buffer_lt k d p, Nat.mod_lt _ (by decide)⟩

/-- The call `io.Copy` leaves the accumulator as a single `Write` of the whole stream
does, however the stream is divided into chunks. -/
theorem ioCopy_eq_Write (k : HashKind) : ∀ (chunks : List (List Nat)) (d : Digest),
    d.x.length < k.chunk → d.len < 2 ^ 64 → ioCopy k d chunks = d.Write k chunks.flatten
  | [], d, hx, hl => by
    simp [ioCopy, Write_nil k d hx hl]
  | c :: cs, d, hx, hl => by
    have ih := ioCopy_eq_Write k cs
    simp only [ioCopy, List.foldl_cons, List.flatten_cons] at ih ⊢
    by_cases h0 : 0 < c.length
    · rw [if_pos h0, ih _ (Write_valid k d c hx).1 (Write_valid k d c hx).2,
        Write_append k d c _ hx]
    · have hnil : c = [] := List.length_eq_zero.mp (by omega)
      rw [if_neg h0, ih d hx hl, hnil, List.nil_append]

/-! ## `fileChecksum` -/

theorem fileChecksum_regular (path : List Char) (k : HashKind) (w : World) (file : Stream)
    (hs : w.stat path = some true) (ho : w.openFile path = some file)
    (hf : file.failed = false) (hx : (w.hashes k).x.length < k.chunk)
    (hl : (w.hashes k).len < 2 ^ 64) :
    fileChecksum path k w =
      .ok (EncodeToString (((w.hashes k).Write k file.chunks.flatten).Sum k))
        { w with
          hashes := fun j => if j = k then (w.hashes k).Write k file.chunks.flatten
            else w.hashes j
          fsLog := w.fsLog ++ [.statCall path, .openCall path, .closeCall path] } := by
  simp only [fileChecksum, hs, ho, hf, ioCopy_eq_Write k file.chunks _ hx hl,
    List.append_assoc, List.singleton_append]
  rfl

/-- Counterexample to C2 as stated: `/tmp/locked` is an existing regular file and the
sha256 accumulator is fresh, yet `fileChecksum` panics in `os.Open` and returns no
digest. -/
theorem C2_unreadable_file_panics :
    (sampleWorld []).stat "/tmp/locked".toList = some true ∧
    (sampleWorld []).hashes .sha256 = New .sha256 ∧
    (fileChecksum "/tmp/locked".toList .sha256 (sampleWorld [])).value? = none ∧
    (fileChecksum "/tmp/locked".toList .sha256 (sampleWorld [])).halted? = some .panic := by
  decide

set_option maxRecDepth 100000 in
/-- The six hash functions on the empty message and on `abc` give the published test
values of MD5, SHA-1 and SHA-2. -/
theorem known_answers :
    EncodeToString (hashSum .md5 []) =
      "d41d8cd98f00b204e9800998ecf8427e".toList ∧
    EncodeToString (hashSum .sha1 []) =
      "da39a3ee5e6b4b0d3255bfef95601890afd80709".toList ∧
    EncodeToString (hashSum .sha224 []) =
      "d14a028c2a3a2bc9476102bb288234c415a2b01f828ea62ac5b3e42f".toList ∧
    EncodeToString (hashSum .sha384 []) =
      "38b060a751ac96384cd9327eb1b1e36a21fdb71114be07434c0cc7bf63f6e1da274edebfe76f65fbd51ad2f14898b95b".toList ∧
    EncodeToString (hashSum .sha256 []) =
      "e3b0c44298fc1c149afbf4c8996fb92427ae41e4649b934ca495991b7852b855".toList ∧
    EncodeToString (hashSum .sha512 []) =
      "cf83e1357eefb8bdf1542850d66d8007d620e4050b5715dc83f4a921d36ce9ce47d0d13c5d85f2b0ff8318d2877eec2f63b931bd47417a81a538327af927da3e".toList ∧
    EncodeToString (hashSum .md5 [0x61, 0x62, 0x63]) =
      "900150983cd24fb0d6963f7d28e17f72".toList ∧
    EncodeToString (hashSum .sha1 [0x61, 0x62, 0x63]) =
      "a9993e364706816aba3e25717850c26c9cd0d89d".toList ∧
    EncodeToString (hashSum .sha224 [0x61, 0x62, 0x63]) =
      "23097d223405d8228642a477bda255b32aadbce4bda0b3f7e36c9da7".toList ∧
    EncodeToString (hashSum .sha384 [0x61, 0x62, 0x63]) =
      "cb00753f45a35e8bb5a03d699ac65007272c32ab0eded1631a8b605a43ff5bed8086072ba1e7cc2358baeca134c825a7".toList ∧
    EncodeToString (hashSum .sha256 [0x61, 0x62, 0x63]) =
      "ba7816bf8f01cfea414140de5dae2223b00361a396177a9cb410ff61f20015ad".toList ∧
    EncodeToString (hashSum .sha512 [0x61, 0x62, 0x63]) =
      "ddaf35a193617abacc417349ae20413112e6fa4e89a97ea20a9eeee64b55d39a2192992a274fc1a836ba3c23a3feebbd454d4423643ce80e2a9ac94fa54ca49f".toList := by
  decide

theorem sha256_empty : EncodeToString (hashSum .sha256 []) =
    "e3b0c44298fc1c149afbf4c8996fb92427ae41e4649b934ca495991b7852b855".toList :=
  known_answers.2.2.2.2.1

theorem sha256_abc : EncodeToString (hashSum .sha256 [0x61, 0x62, 0x63]) =
    "ba7816bf8f01cfea414140de5dae2223b00361a396177a9cb410ff61f20015ad".toList :=
  known_answers.2.2.2.2.2.2.2.2.2.2.1

/-- C2, amended (`fileChecksum`): for a regular file that can be opened and read to its
end without error, and an accumulator that has absorbed no bytes, `fileChecksum` returns
the lower-case hexadecimal encoding of the algorithm's hash of the file's bytes, however
the stream is divided into chunks; for sha256 a file of length zero gives `e3b0c442...`
and a file with the bytes `abc` gives `ba7816bf...`. -/
theorem C2_fileChecksum_digest (path : List Char) (k : HashKind) (w : World) (file : Stream)
    (hs : w.stat path = some true) (ho : w.openFile path = some file)
    (hf : file.failed = false) (hfresh : w.hashes k = New k) :
    (fileChecksum path k w).value? = some (EncodeToString (hashSum k file.chunks.flatten)) ∧
    (k = .sha256 → file.chunks.flatten = [] → (fileChecksum path k w).value? =
      some "e3b0c44298fc1c149afbf4c8996fb92427ae41e4649b934ca495991b7852b855".toList) ∧
    (k = .sha256 → file.chunks.flatten = [0x61, 0x62, 0x63] →
      (fileChecksum path k w).value? =
        some "ba7816bf8f01cfea414140de5dae2223b00361a396177a9cb410ff61f20015ad".toList) := by
  have hv := New_valid k
  have h := fileChecksum_regular path k w file hs ho hf (by rw [hfresh]; exact hv.1)
    (by rw [hfresh]; exact hv.2)
  rw [hfresh] at h
  have hval : (fileChecksum path k w).value?
      = some (EncodeToString (hashSum k file.chunks.flatten)) := by
    rw [h]; rfl
  refine ⟨hval, ?_, ?_⟩
  · intro hk he
    rw [hval, hk, he, sha256_empty]
  · intro hk he
    rw [hval, hk, he, sha256_abc]

/-- Witness of C2 (amended) on `/tmp/abc`, whose bytes arrive in two reads. -/
theorem C2_fileChecksum_digest_witness :
    (fileChecksum "/tmp/abc".toList .sha256 (sampleWorld [])).value? =
      some "ba7816bf8f01cfea414140de5dae2223b00361a396177a9cb410ff61f20015ad".toList :=
  (C2_fileChecksum_digest "/tmp/abc".toList .sha256 (sampleWorld []) ⟨[[0x61, 0x62], [0x63]], false⟩
    (by decide) (by decide) rfl rfl).2.2 rfl (by decide)

/-- C4 (`fileChecksum`): when `os.Stat` fails or reports a mode that is not regular,
`fileChecksum` prints the invalid-path message in light red and exits with status 1; the
file is never opened (the only call logged is the `stat`), no accumulator changes, and no
digest is returned. -/
theorem C4_fileChecksum_invalid_path (path : List Char) (k : HashKind) (w : World)
    (h : w.stat path = none ∨ w.stat path = some false) :
    fileChecksum path k w = .halt (.exit 1)
      { w with
        stdout := w.stdout ++
          "\x1b[0;91mInput contains invalid filepath. (or file do not exist)\n\x1b[0m".toList
        fsLog := w.fsLog ++ [.statCall path] } ∧
    (fileChecksum path k w).value? = none ∧
    (fileChecksum path k w).world.hashes = w.hashes ∧
    FsCall.openCall path ∉ (fileChecksum path k w).world.fsLog.drop w.fsLog.length := by
  have e : fileChecksum path k w = .halt (.exit 1)
      { w with
        stdout := w.stdout ++
          "\x1b[0;91mInput contains invalid filepath. (or file do not exist)\n\x1b[0m".toList
        fsLog := w.fsLog ++ [.statCall path] } := by
    rcases h with h | h <;> simp only [fileChecksum, h] <;> rfl
  refine ⟨e, ?_, ?_, ?_⟩
  · rw [e]; rfl
  · rw [e]; rfl
  · rw [e]
    simp [Res.world]

/-- Witness of C4 on the directory `/tmp`. -/
theorem C4_fileChecksum_invalid_path_witness :
    (fileChecksum "/tmp".toList .md5 (sampleWorld [])).halted? = some (.exit 1) := by
  rw [(C4_fileChecksum_invalid_path "/tmp".toList .md5 (sampleWorld []) (Or.inr (by decide))).1]
  rfl

/-! ## Output: `print` and `printChecksums` -/

theorem print_plain (text : List Char) (color : Color) (w : World) :
    print text color [] w = { w with stdout := w.stdout ++
      ("\x1b[0;".toList ++ (toString color).toList ++ ['m'] ++ text ++ "\x1b[0m".toList) } :=
  rfl

theorem print_segment (e : Char) (w : World) :
    (if '0'.toNat ≤ e.toNat ∧ e.toNat ≤ '9'.toNat then print "%s".toList Cyan [[e]] w
      else print "%s".toList DefaultColor [[e]] w)
    = { w with stdout := w.stdout ++ segment e } := by
  unfold segment
  split <;> rfl

theorem print_segments : ∀ (d : List Char) (w : World),
    d.foldl (fun v e =>
      if '0'.toNat ≤ e.toNat ∧ e.toNat ≤ '9'.toNat then print "%s".toList Cyan [[e]] v
      else print "%s".toList DefaultColor [[e]] v) w
    = { w with stdout := w.stdout ++ d.flatMap segment }
  | [], w => by simp
  | e :: d, w => by
    rw [List.foldl_cons, print_segment, print_segments d]
    simp [List.flatMap_cons, List.append_assoc]

theorem printChecksums_eq (d : List Char) (w : World) :
    printChecksums d w = { w with stdout := w.stdout ++ rendered d } := by
  simp only [printChecksums, print_segments, print_plain, rendered, List.append_assoc]
  rfl

theorem stripAux_segment (e : Char) (he : e ≠ '\x1b') (rest : List Char) :
    stripAux false (segment e ++ rest) = e :: stripAux false rest := by
  unfold segment
  split <;> simp [stripAux, he]

theorem stripAux_segments : ∀ (d : List Char), (∀ c ∈ d, c ≠ '\x1b') → ∀ rest : List Char,
    stripAux false (d.flatMap segment ++ rest) = d ++ stripAux false rest
  | [], _, rest => by simp
  | e :: d, h, rest => by
    rw [List.flatMap_cons, List.append_assoc,
      stripAux_segment e (h e (List.mem_cons_self _ _)),
      stripAux_segments d (fun c hc => h c (List.mem_cons_of_mem _ hc))]
    rfl

/-- C6 (`printChecksums`): for a digest of lower-case hexadecimal characters the output is
the label `Checksum\t: ` in the default colour (39), then one segment
`\033[0;<n>m<char>\033[0m` per character in order, with `n = 36` exactly for the digits
`0` to `9` and `n = 39` otherwise, then the newline; stripping the escape sequences from
what lies between the label and the final newline gives back the digest. -/
theorem C6_printChecksums_format (d : List Char) (w : World)
    (hd : ∀ c ∈ d, c ∈ "0123456789abcdef".toList) :
    printChecksums d w = { w with stdout := w.stdout ++
      ("\x1b[0;39mChecksum\t: \x1b[0m".toList ++ d.flatMap segment
        ++ ("\x1b[0;0m".toList ++ '\n' :: "\x1b[0m".toList)) } ∧
    (∀ e ∈ d, segment e =
      "\x1b[0;".toList ++ (if e ∈ "0123456789".toList then "36" else "39").toList
        ++ 'm' :: e :: "\x1b[0m".toList) ∧
    stripEscapes (d.flatMap segment ++ "\x1b[0;0m".toList) = d := by
  refine ⟨?_, ?_, ?_⟩
  · rw [printChecksums_eq]; rfl
  · intro e he
    have := hd e he
    simp only [String.toList, List.mem_cons, List.mem_singleton, List.not_mem_nil,
      or_false] at this
    rcases this with h | h | h | h | h | h | h | h | h | h | h | h | h | h | h | h <;>
      subst h <;> decide
  · have hne : ∀ c ∈ d, c ≠ '\x1b' := by
      intro c hc h
      have := hd c hc
      rw [h] at this
      exact absurd this (by decide)
    unfold stripEscapes
    rw [stripAux_segments d hne]
    simp [stripAux]

/-- Witness of C6 on the digest `0a`. -/
theorem C6_printChecksums_format_witness :
    (∀ c ∈ "0a".toList, c ∈ "0123456789abcdef".toList) ∧
    stripEscapes ("0a".toList.flatMap segment ++ "\x1b[0;0m".toList) = "0a".toList :=
  ⟨by decide, (C6_printChecksums_format "0a".toList (sampleWorld []) (by decide)).2.2⟩

/-! ## Input: `fmt.Scanln` and `getUserInput` -/

theorem not_space_ne (r : Char) (h : isSpace r = false) : r ≠ '\n' ∧ r ≠ '\r' := by
  constructor <;> (intro e; rw [e] at h; exact absurd h (by decide))

theorem SkipSpace_blank : ∀ (pre rest : List Char), blank pre →
    SkipSpace (pre ++ rest) = SkipSpace rest
  | [], _, _ => rfl
  | c :: pre, rest, h => by
    have hc := h c (List.mem_cons_self _ _)
    have ih := SkipSpace_blank pre rest (fun x hx => h x (List.mem_cons_of_mem _ hx))
    rw [List.cons_append, SkipSpace]
    split
    · exact ih
    · simp only [if_neg hc.2, hc.1, Bool.not_true, Bool.false_eq_true, if_false]
      exact ih

theorem SkipSpace_token (r : Char) (rest : List Char) (h : isSpace r = false) :
    SkipSpace (r :: rest) = (true, r :: rest) := by
  have hne := not_space_ne r h
  rw [SkipSpace]
  simp [hne.1, hne.2, h]

theorem token_spaceFree : ∀ (t rest : List Char), spaceFree t →
    (rest = [] ∨ ∃ c r, rest = c :: r ∧ isSpace c = true) → token (t ++ rest) = (t, rest)
  | [], rest, _, hr => by
    rcases hr with rfl | ⟨c, r, rfl, hc⟩
    · rfl
    · simp [token, hc]
  | c :: t, rest, h, hr => by
    have hc := h c (List.mem_cons_self _ _)
    have ih := token_spaceFree t rest (fun x hx => h x (List.mem_cons_of_mem _ hx)) hr
    rw [List.cons_append, token]
    simp [hc, ih]

theorem endOfLine_blank : ∀ (post rest : List Char), blank post →
    endOfLine (post ++ rest) = endOfLine rest
  | [], _, _ => rfl
  | c :: post, rest, h => by
    have hc := h c (List.mem_cons_self _ _)
    have ih := endOfLine_blank post rest (fun x hx => h x (List.mem_cons_of_mem _ hx))
    rw [List.cons_append, endOfLine]
    simp only [if_neg hc.2, hc.1, Bool.not_true, Bool.false_eq_true, if_false]
    exact ih

theorem blank_head (post tail : List Char) (h : blank post)
    (ht : tail = [] ∨ ∃ c r, tail = c :: r ∧ isSpace c = true) :
    post ++ tail = [] ∨ ∃ c r, post ++ tail = c :: r ∧ isSpace c = true := by
  cases post with
  | nil => simpa using ht
  | cons c post => exact Or.inr ⟨c, post ++ tail, rfl, (h c (List.mem_cons_self _ _)).1⟩

/-- The scanner on a line that holds one token: white space, the token, white space, and
then `tail`, which is the end of the input, a newline, or a further token. -/
theorem Scanln_line (pre t post tail : List Char) (hpre : blank pre) (ht : spaceFree t)
    (hne : t ≠ []) (hpost : blank post)
    (htail : tail = [] ∨ (∃ r, tail = '\n' :: r) ∨ (post ≠ [] ∧ ∃ c r, tail = c :: r)) :
    Scanln (pre ++ t ++ post ++ tail) =
      match endOfLine tail with
      | (true, rest) => .ok t rest
      | (false, rest) => .err rest := by
  obtain ⟨r, t1, rfl⟩ := List.exists_cons_of_ne_nil hne
  have hr := ht r (List.mem_cons_self _ _)
  have hsp : post ++ tail = [] ∨ ∃ c r, post ++ tail = c :: r ∧ isSpace c = true := by
    rcases htail with rfl | ⟨r1, rfl⟩ | ⟨hp, c, r1, rfl⟩
    · exact blank_head post [] hpost (Or.inl rfl)
    · exact blank_head post _ hpost (Or.inr ⟨'\n', r1, rfl, by decide⟩)
    · obtain ⟨c0, p0, rfl⟩ := List.exists_cons_of_ne_nil hp
      exact Or.inr ⟨c0, p0 ++ c :: r1, rfl, (hpost c0 (List.mem_cons_self _ _)).1⟩
  have e1 : pre ++ (r :: t1) ++ post ++ tail = pre ++ (r :: (t1 ++ (post ++ tail))) := by
    simp [List.append_assoc]
  have e2 : r :: (t1 ++ (post ++ tail)) = (r :: t1) ++ (post ++ tail) := rfl
  rw [e1]
  unfold Scanln
  rw [SkipSpace_blank pre _ hpre, SkipSpace_token r _ hr]
  simp only [SkipSpace_token r _ hr]
  rw [e2, token_spaceFree (r :: t1) (post ++ tail) ht hsp]
  simp only [endOfLine_blank post tail hpost]

theorem Scanln_token_newline (pre t post rest : List Char) (hpre : blank pre)
    (ht : spaceFree t) (hne : t ≠ []) (hpost : blank post) :
    Scanln (pre ++ t ++ post ++ '\n' :: rest) = .ok t rest := by
  rw [Scanln_line pre t post _ hpre ht hne hpost (Or.inr (Or.inl ⟨rest, rfl⟩))]
  simp [endOfLine]

theorem Scanln_token_eof (pre t post : List Char) (hpre : blank pre)
    (ht : spaceFree t) (hne : t ≠ []) (hpost : blank post) :
    Scanln (pre ++ t ++ post) = .ok t [] := by
  have := Scanln_line pre t post [] hpre ht hne hpost (Or.inl rfl)
  simpa [endOfLine] using this

theorem Scanln_second_token (pre t post : List Char) (c : Char) (rest : List Char)
    (hpre : blank pre) (ht : spaceFree t) (hne : t ≠ []) (hpost : blank post)
    (hp : post ≠ []) (hc : isSpace c = false) :
    Scanln (pre ++ t ++ post ++ c :: rest) = .err rest := by
  rw [Scanln_line pre t post _ hpre ht hne hpost (Or.inr (Or.inr ⟨hp, c, rest, rfl⟩))]
  simp [endOfLine, hc, (not_space_ne c hc).1]

theorem Scanln_empty_line (pre rest : List Char) (hpre : blank pre) :
    Scanln (pre ++ '\n' :: rest) = .err rest := by
  unfold Scanln
  rw [SkipSpace_blank pre _ hpre]
  have : SkipSpace ('\n' :: rest) = (false, rest) := by
    rw [SkipSpace]; simp
  simp only [this]

theorem Scanln_eof (pre : List Char) (hpre : blank pre) : Scanln pre = .err [] := by
  have := SkipSpace_blank pre [] hpre
  rw [List.append_nil] at this
  unfold Scanln
  rw [this]
  rfl

/-- Counterexample to C9 as stated: on an empty line, and on a line with a space inside,
`getUserInput` returns nothing; it prints `Invalid input` and exits with status 1 although
the read itself met no error. -/
theorem C9_empty_line_and_inner_space_exit :
    (getUserInput (sampleWorld "\nnext\n".toList)).value? = none ∧
    (getUserInput (sampleWorld "\nnext\n".toList)).halted? = some (.exit 1) ∧
    (getUserInput (sampleWorld "\nnext\n".toList)).world.stdout
      = "\x1b[0;31mInvalid input\x1b[0m".toList ∧
    (getUserInput (sampleWorld "my file.txt\n".toList)).value? = none ∧
    (getUserInput (sampleWorld "my file.txt\n".toList)).halted? = some (.exit 1) ∧
    (getUserInput (sampleWorld "my file.txt\n".toList)).world.stdout
      = "\x1b[0;31mInvalid input\x1b[0m".toList := by
  decide

/-- C9, amended (`getUserInput`): for a line of standard input that holds exactly one
token free of white space, with any white space other than a newline around it, and
that ends with a newline or with the input, `getUserInput` returns the token, which is
the line trimmed, and consumes the line. It prints `Invalid input` and exits with status 1
whenever `Scanln` reports an error: at the end of the input, on a line that is empty or
all white space, and on a line with white space inside (a second token). -/
theorem C9_getUserInput_token (w : World) (pre t post rest : List Char) (hpre : blank pre)
    (ht : spaceFree t) (hne : t ≠ []) (hpost : blank post) :
    (w.stdin = pre ++ t ++ post ++ '\n' :: rest →
      getUserInput w = .ok t { w with stdin := rest }) ∧
    (w.stdin = pre ++ t ++ post → getUserInput w = .ok t { w with stdin := [] }) ∧
    (w.stdin = pre → getUserInput w = .halt (.exit 1)
      { w with stdin := [], stdout := w.stdout ++ "\x1b[0;31mInvalid input\x1b[0m".toList }) ∧
    (w.stdin = pre ++ '\n' :: rest → getUserInput w = .halt (.exit 1)
      { w with stdin := rest, stdout := w.stdout ++ "\x1b[0;31mInvalid input\x1b[0m".toList }) ∧
    (∀ c, isSpace c = false → post ≠ [] → w.stdin = pre ++ t ++ post ++ c :: rest →
      getUserInput w = .halt (.exit 1)
        { w with stdin := rest, stdout := w.stdout ++ "\x1b[0;31mInvalid input\x1b[0m".toList })
    := by
  refine ⟨?_, ?_, ?_, ?_, ?_⟩
  · intro h
    simp only [getUserInput, h, Scanln_token_newline pre t post rest hpre ht hne hpost]
  · intro h
    simp only [getUserInput, h, Scanln_token_eof pre t post hpre ht hne hpost]
  · intro h
    simp only [getUserInput, h, Scanln_eof pre hpre]
    rfl
  · intro h
    simp only [getUserInput, h, Scanln_empty_line pre rest hpre]
    rfl
  · intro c hc hp h
    simp only [getUserInput, h, Scanln_second_token pre t post c rest hpre ht hne hpost hp hc]
    rfl

/-- Witness of C9 (amended): the line ` /tmp/abc ` followed by a newline. -/
theorem C9_getUserInput_token_witness :
    blank " ".toList ∧ spaceFree "/tmp/abc".toList ∧ "/tmp/abc".toList ≠ [] ∧
    (getUserInput (sampleWorld " /tmp/abc \nrest".toList)).value? = some "/tmp/abc".toList :=
  ⟨by decide, by decide, by decide,
    by rw [(C9_getUserInput_token (sampleWorld " /tmp/abc \nrest".toList) " ".toList
      "/tmp/abc".toList " ".toList "rest".toList (by decide) (by decide) (by decide)
      (by decide)).1 rfl]; rfl⟩

/-! ## Repeated calls of `fileChecksum` -/

set_option maxRecDepth 100000 in
/-- Counterexample to C3 as stated: the name `sha256` is resolved and `fileChecksum` is
called twice in succession on `/tmp/abc`; the first call returns the digest of `abc`, the
second one the digest of `abcabc`, because the accumulator of the registry still holds
the bytes of the first call. -/
theorem C3_second_call_differs :
    getAlgorithm latinLower "sha256".toList = some .sha256 ∧
    (fileChecksum "/tmp/abc".toList .sha256 (sampleWorld [])).value? =
      some "ba7816bf8f01cfea414140de5dae2223b00361a396177a9cb410ff61f20015ad".toList ∧
    (fileChecksum "/tmp/abc".toList .sha256
        (fileChecksum "/tmp/abc".toList .sha256 (sampleWorld [])).world).value? =
      some "bbb59da3af939f7af5f360f2ceb80a496e3bae1cd87dde426db0ae40677e1c2c".toList := by
  decide

/-- C3, amended (`getAlgorithm`, `fileChecksum`): on an accumulator that has absorbed no
bytes the digest is determined by the content of the file and the algorithm alone. Two
calls for files with the same bytes that are opened and read without error, each made
while the resolved accumulator is fresh (in any two states of the world, and whatever the
division into chunks), return the same digest. -/
theorem C3_fileChecksum_deterministic (tbl : Char → Char) (name : List Char) (k : HashKind)
    (w w' : World) (path path' : List Char) (file file' : Stream)
    (_hres : getAlgorithm tbl name = some k)
    (hs : w.stat path = some true) (ho : w.openFile path = some file)
    (hf : file.failed = false) (hfresh : w.hashes k = New k)
    (hs' : w'.stat path' = some true) (ho' : w'.openFile path' = some file')
    (hf' : file'.failed = false) (hfresh' : w'.hashes k = New k)
    (hsame : file.chunks.flatten = file'.chunks.flatten) :
    (fileChecksum path k w).value? = (fileChecksum path' k w').value? ∧
    (fileChecksum path k w).value? = some (EncodeToString (hashSum k file.chunks.flatten)) := by
  have hv := New_valid k
  have h := fileChecksum_regular path k w file hs ho hf (by rw [hfresh]; exact hv.1)
    (by rw [hfresh]; exact hv.2)
  have h' := fileChecksum_regular path' k w' file' hs' ho' hf' (by rw [hfresh']; exact hv.1)
    (by rw [hfresh']; exact hv.2)
  rw [hfresh] at h
  rw [hfresh', ← hsame] at h'
  rw [h, h']
  exact ⟨rfl, rfl⟩

/-- Witness of C3 (amended): `/tmp/abc` read in two pieces in one world and in a single
piece in another. -/
theorem C3_fileChecksum_deterministic_witness :
    (fileChecksum "/tmp/abc".toList .sha256 (sampleWorld [])).value? =
      (fileChecksum "/f".toList .sha256
        { sampleWorld [] with
          stat := fun _ => some true
          openFile := fun _ => some ⟨[[0x61, 0x62, 0x63]], false⟩ }).value? :=
  (C3_fileChecksum_deterministic latinLower "SHA256".toList .sha256 (sampleWorld [])
    { sampleWorld [] with
      stat := fun _ => some true
      openFile := fun _ => some ⟨[[0x61, 0x62, 0x63]], false⟩ }
    "/tmp/abc".toList "/f".toList ⟨[[0x61, 0x62], [0x63]], false⟩ ⟨[[0x61, 0x62, 0x63]], false⟩
    (by decide) (by decide) (by decide) rfl rfl rfl rfl rfl rfl (by decide)).1

/-! ## `printReport` -/

theorem hextable_getD_mem (n : Nat) : hextable.getD n '0' ∈ hextable := by
  by_cases h : n < 16
  · have : ∀ m < 16, hextable.getD m '0' ∈ hextable := by decide
    exact this n h
  · rw [List.getD_eq_default _ _ (by simpa [hextable] using h)]
    decide

theorem EncodeToString_hex (src : List Nat) : ∀ c ∈ EncodeToString src, c ∈ hextable := by
  intro c hc
  simp only [EncodeToString, List.mem_flatMap, List.mem_cons, List.mem_singleton,
    List.not_mem_nil, or_false] at hc
  obtain ⟨v, _, rfl | rfl⟩ := hc <;> exact hextable_getD_mem _

theorem fileChecksum_ok (path : List Char) (k : HashKind) (w : World) (d : List Char)
    (w1 : World) (h : fileChecksum path k w = .ok d w1) :
    (∀ c ∈ d, c ∈ hextable) ∧ w1.stdin = w.stdin ∧ w1.stdout = w.stdout := by
  simp only [fileChecksum] at h
  split at h
  · split at h
    · exact absurd h (by simp)
    · split at h
      · exact absurd h (by simp)
      · simp only [Res.ok.injEq] at h
        obtain ⟨rfl, rfl⟩ := h
        exact ⟨EncodeToString_hex _, rfl, rfl⟩
  · exact absurd h (by simp)

theorem upper_hex_letter : ∀ e ∈ "abcdef".toList,
    asciiUpper e ≠ e ∧ isSpace (asciiUpper e) = false := by
  decide

theorem hex_spaceFree : ∀ c ∈ hextable, isSpace c = false := by decide

/-- C5 (`printReport`): once the digest `d` is computed and the comparison string `c` is
read, the verdict printed is the success line in light green if `d` and `c` are equal as
strings and the failure line in light red otherwise; no case folding takes place, so the
digest with one of its hexadecimal letters in upper case, typed as comparison string, is
reported as a mismatch. -/
theorem C5_printReport_verdict (path : List Char) (k : HashKind) (w : World) (d : List Char)
    (w1 : World) (h1 : fileChecksum path k w = .ok d w1) :
    (∀ c w2,
      getUserInput (print "Compare to checksum: ".toList DefaultColor []
        (printChecksums d w1)) = .ok c w2 →
      printReport path k w = .ok () { w2 with stdout := w2.stdout ++ rendered d ++ rendered c ++
        (if d = c then "\x1b[0;92m✓ Checksums match\n\x1b[0m".toList
          else "\x1b[0;91m✕ Checksums DO NOT match\n\x1b[0m".toList) }) ∧
    (∀ i e rest, d.get? i = some e → e ∈ "abcdef".toList →
      w1.stdin = d.set i (asciiUpper e) ++ '\n' :: rest →
      printReport path k w = .ok () { w1 with
        stdin := rest
        stdout := w1.stdout ++ rendered d ++ "\x1b[0;39mCompare to checksum: \x1b[0m".toList
          ++ rendered d ++ rendered (d.set i (asciiUpper e))
          ++ "\x1b[0;91m✕ Checksums DO NOT match\n\x1b[0m".toList }) := by
  have part1 : ∀ c w2,
      getUserInput (print "Compare to checksum: ".toList DefaultColor []
        (printChecksums d w1)) = .ok c w2 →
      printReport path k w = .ok () { w2 with stdout := w2.stdout ++ rendered d ++ rendered c ++
        (if d = c then "\x1b[0;92m✓ Checksums match\n\x1b[0m".toList
          else "\x1b[0;91m✕ Checksums DO NOT match\n\x1b[0m".toList) } := by
    intro c w2 h2
    simp only [printReport, h1]
    simp only [h2]
    simp only [printChecksums_eq, print_plain]
    split <;> simp only [List.append_assoc] <;> rfl
  refine ⟨part1, ?_⟩
  intro i e rest hi he hin
  obtain ⟨hhex, _, _⟩ := fileChecksum_ok path k w d w1 h1
  obtain ⟨hup, hsp⟩ := upper_hex_letter e he
  have hilt : i < d.length := by
    rcases Nat.lt_or_ge i d.length with h | h
    · exact h
    · rw [List.get?_eq_none.mpr h] at hi; exact absurd hi (by simp)
  have hfree : spaceFree (d.set i (asciiUpper e)) := by
    intro c hc
    rcases List.mem_or_eq_of_mem_set hc with h | h
    · exact hex_spaceFree c (hhex c h)
    · rw [h]; exact hsp
  have hne : d.set i (asciiUpper e) ≠ [] := by
    intro h
    have := congrArg List.length h
    rw [List.length_set, List.length_nil] at this
    omega
  have hdiff : d ≠ d.set i (asciiUpper e) := by
    intro h
    have h3 : (d.set i (asciiUpper e)).get? i = some (asciiUpper e) := by
      simp [List.getElem?_set, hilt]
    rw [← h, hi] at h3
    exact hup (Option.some.inj h3).symm
  have hscan := Scanln_token_newline [] (d.set i (asciiUpper e)) [] rest
    (by intro c hc; simp at hc) hfree hne (by intro c hc; simp at hc)
  simp only [List.nil_append, List.append_nil] at hscan
  have h2 : getUserInput (print "Compare to checksum: ".toList DefaultColor []
      (printChecksums d w1)) = .ok (d.set i (asciiUpper e))
        { print "Compare to checksum: ".toList DefaultColor [] (printChecksums d w1) with
          stdin := rest } := by
    simp only [getUserInput, printChecksums_eq, print_plain, hin, hscan]
  rw [part1 _ _ h2, if_neg hdiff]
  simp only [printChecksums_eq, print_plain, List.append_assoc]
  rfl

set_option maxRecDepth 100000 in
/-- Witness of C5: the digest of `/tmp/abc` under sha256 is computed and the same digest
with its first letter in upper case is typed; the run ends with the failure verdict. -/
theorem C5_printReport_verdict_witness :
    (printReport "/tmp/abc".toList .sha256 (sampleWorld
      "Ba7816bf8f01cfea414140de5dae2223b00361a396177a9cb410ff61f20015ad\n".toList)).halted?
      = none ∧
    ∃ out, (printReport "/tmp/abc".toList .sha256 (sampleWorld
      "Ba7816bf8f01cfea414140de5dae2223b00361a396177a9cb410ff61f20015ad\n".toList)).world.stdout
      = out ++ "\x1b[0;91m✕ Checksums DO NOT match\n\x1b[0m".toList := by
  rw [(C5_printReport_verdict "/tmp/abc".toList .sha256 (sampleWorld
      "Ba7816bf8f01cfea414140de5dae2223b00361a396177a9cb410ff61f20015ad\n".toList) _ _
    (fileChecksum_regular "/tmp/abc".toList .sha256 _ ⟨[[0x61, 0x62], [0x63]], false⟩
      (by decide) (by decide) rfl (by decide) (by decide))).2 0 'b' [] (by decide) (by decide)
    (by decide)]
  exact ⟨rfl, _, rfl⟩

/-! ## `main` -/

theorem getAlgorithm_default (tbl : Char → Char) :
    getAlgorithm tbl DefaultAlg = some .sha256 := by
  rfl

/-- What `main` does once the algorithm is chosen without the usage help: prompt, read
of the path, report. -/
theorem main_default (tbl : Char → Char) (args : List (List Char)) (w : World)
    (h1 : args.length ≠ 1) (h2 : args.length ≠ 2) :
    main tbl args w =
      match getUserInput { w with stdout := w.stdout ++
          "Drag and drop a file to make a checksum for it: ".toList } with
      | .halt h w3 => .halt h w3
      | .ok filePath w3 => printReport filePath .sha256 w3 := by
  simp only [main, if_neg h1, if_neg h2, getAlgorithm_default]

theorem main_one_arg (tbl : Char → Char) (prog a : List Char) (w : World) :
    main tbl [prog, a] w =
      match getAlgorithm tbl a with
      | none => .ok () (print "Invalid algorithm\n".toList LightRed [] w)
      | some algorithm =>
        match getUserInput { w with stdout := w.stdout ++
            "Drag and drop a file to make a checksum for it: ".toList } with
        | .halt h w3 => .halt h w3
        | .ok filePath w3 => printReport filePath algorithm w3 := by
  simp [main]

set_option maxRecDepth 100000 in
/-- Counterexample to C7 as stated: with the arguments `md5 extra` the file is hashed
with sha256 and the md5 accumulator stays untouched, whereas with the single argument
`md5` it is the md5 accumulator that absorbs the file. -/
theorem C7_two_arguments_use_default :
    (main latinLower ["./gohash".toList, "md5".toList, "extra".toList]
        (sampleWorld "/tmp/abc\nx\n".toList)).world.hashes .md5 = New .md5 ∧
    (main latinLower ["./gohash".toList, "md5".toList, "extra".toList]
        (sampleWorld "/tmp/abc\nx\n".toList)).world.hashes .sha256
      = (New .sha256).Write .sha256 [0x61, 0x62, 0x63] ∧
    (main latinLower ["./gohash".toList, "md5".toList]
        (sampleWorld "/tmp/abc\nx\n".toList)).world.hashes .md5
      = (New .md5).Write .md5 [0x61, 0x62, 0x63] ∧
    (main latinLower ["./gohash".toList, "md5".toList]
        (sampleWorld "/tmp/abc\nx\n".toList)).world.hashes .sha256 = New .sha256 := by
  decide

/-- C7, amended (`main`): with two or more command-line arguments, the first of which is
not `-a`, `main` consults none of them; it prints no usage help and proceeds with
the default algorithm sha256, exactly as with the single argument `sha256`. -/
theorem C7_many_arguments_ignored (tbl : Char → Char) (args : List (List Char)) (w : World)
    (h : 3 ≤ args.length) (_hform : args.get? 1 ≠ some "-a".toList) :
    main tbl args w = main tbl [args.getD 0 [], "sha256".toList] w ∧
    main tbl args w =
      match getUserInput { w with stdout := w.stdout ++
          "Drag and drop a file to make a checksum for it: ".toList } with
      | .halt h w3 => .halt h w3
      | .ok filePath w3 => printReport filePath .sha256 w3 := by
  have e := main_default tbl args w (by omega) (by omega)
  refine ⟨?_, e⟩
  rw [e, main_one_arg]
  have : getAlgorithm tbl "sha256".toList = some .sha256 := getAlgorithm_default tbl
  simp only [this]

/-- Witness of C7 (amended) for the arguments `md5 extra`. -/
theorem C7_many_arguments_ignored_witness :
    main latinLower ["./gohash".toList, "md5".toList, "extra".toList] (sampleWorld [])
      = main latinLower ["./gohash".toList, "sha256".toList] (sampleWorld []) :=
  (C7_many_arguments_ignored latinLower ["./gohash".toList, "md5".toList, "extra".toList]
    (sampleWorld []) (by decide) (by decide)).1

set_option maxRecDepth 100000 in
/-- C8, the program at the invocation `./gohash -a md5` that its usage help shows: the
two arguments make `len(os.Args)` equal to 3, the test `argc == 2` fails, and the run is
the one of the default algorithm; the file is absorbed by the sha256 accumulator and the
md5 accumulator stays untouched. -/
theorem C8_usage_form_selects_default :
    (∀ (tbl : Char → Char) (n : List Char) (w : World),
      main tbl ["./gohash".toList, "-a".toList, n] w
        = main tbl ["./gohash".toList, "sha256".toList] w) ∧
    (main latinLower ["./gohash".toList, "-a".toList, "md5".toList]
        (sampleWorld "/tmp/abc\nx\n".toList)).world.hashes .md5 = New .md5 ∧
    (main latinLower ["./gohash".toList, "-a".toList, "md5".toList]
        (sampleWorld "/tmp/abc\nx\n".toList)).world.hashes .sha256
      = (New .sha256).Write .sha256 [0x61, 0x62, 0x63] := by
  refine ⟨?_, by decide, by decide⟩
  intro tbl n w
  rw [main_default tbl _ w (by simp) (by simp), main_one_arg]
  have : getAlgorithm tbl "sha256".toList = some .sha256 := getAlgorithm_default tbl
  simp only [this]

/-- C10 (`main`): with exactly one argument that matches none of the supported names
case-insensitively, `main` prints `Invalid algorithm` in light red and returns normally;
the prompt is not printed, standard input is not read, the file system is not touched and
no accumulator changes. -/
theorem C10_invalid_algorithm (tbl : Char → Char) (hT : asciiSafe tbl) (prog a : List Char)
    (w : World)
    (h : ∀ n ∈ ["md5", "sha1", "sha224", "sha384", "sha256", "sha512"],
      equalIgnoreCase a n.toList = false) :
    main tbl [prog, a] w = .ok () { w with stdout := w.stdout ++
      "\x1b[0;91mInvalid algorithm\n\x1b[0m".toList } ∧
    (main tbl [prog, a] w).halted? = none ∧
    (main tbl [prog, a] w).world.stdin = w.stdin ∧
    (main tbl [prog, a] w).world.fsLog = w.fsLog ∧
    (main tbl [prog, a] w).world.hashes = w.hashes := by
  have hnone : getAlgorithm tbl a = none := by
    apply getAlgorithm_of_no_match tbl hT
    intro b hb
    simp only [algorithms, List.mem_cons, List.mem_singleton, List.not_mem_nil, or_false] at hb
    rcases hb with rfl | rfl | rfl | rfl | rfl | rfl
    · exact h "md5" (by simp)
    · exact h "sha1" (by simp)
    · exact h "sha224" (by simp)
    · exact h "sha384" (by simp)
    · exact h "sha256" (by simp)
    · exact h "sha512" (by simp)
  have e : main tbl [prog, a] w = .ok () { w with stdout := w.stdout ++
      "\x1b[0;91mInvalid algorithm\n\x1b[0m".toList } := by
    rw [main_one_arg]
    simp only [hnone]
    rfl
  rw [e]
  exact ⟨rfl, rfl, rfl, rfl, rfl⟩

/-- Witness of C10 for the argument `crc32`. -/
theorem C10_invalid_algorithm_witness :
    asciiSafe latinLower ∧
    (∀ n ∈ ["md5", "sha1", "sha224", "sha384", "sha256", "sha512"],
      equalIgnoreCase "crc32".toList n.toList = false) ∧
    main latinLower ["./gohash".toList, "crc32".toList] (sampleWorld "/tmp/abc\n".toList)
      = .ok () { sampleWorld "/tmp/abc\n".toList with
          stdout := "\x1b[0;91mInvalid algorithm\n\x1b[0m".toList } :=
  ⟨latinLower_asciiSafe, by decide,
    (C10_invalid_algorithm latinLower latinLower_asciiSafe "./gohash".toList "crc32".toList
      (sampleWorld "/tmp/abc\n".toList) (by decide)).1⟩

end Gohash
